import Mathlib

/-!
Verification of `ci/generate-debian-changelog.py`: a one-shot converter from a
Markdown changelog to the Debian changelog format.  The parser is a line-wise
state machine (entries, current entry, current section, skip-mode, pending
bullet accumulator); the renderer formats each parsed entry with fixed
constants.  Definitions below are a shallow embedding of that script; lines
are modelled as newline-free strings, as produced by `readlines()` +
`rstrip("\n")`.
-/

namespace Md2Debian

/-- ASCII whitespace as accepted by Python's `str.strip` and the regex class
`\s` (Unicode whitespace beyond ASCII is not modelled). -/
def isWs (c : Char) : Bool :=
  c = ' ' || c = '\t' || c = '\n' || c = '\r' || c = '\x0b' || c = '\x0c'

/-- `str.strip()` on the character list: drop whitespace at both ends. -/
def pyStripL (cs : List Char) : List Char :=
  ((cs.dropWhile isWs).reverse.dropWhile isWs).reverse

/-- Python's `str.strip()`. -/
def pyStrip (s : String) : String :=
  ⟨pyStripL s.data⟩

/-- Characters allowed in the version group of the header regex: `[0-9.]`. -/
def isVerC (c : Char) : Bool :=
  c.isDigit || c = '.'

def fpingChars : List Char := ['f', 'p', 'i', 'n', 'g']

/-- Tail of the version-header match after the literal `fping`:
`\s+([0-9.]+)\s+\((\d{4}-\d{2}-\d{2})\)` (prefix match, the original uses
`re.match`, so arbitrary trailing characters are allowed).  All character
classes at the greedy-run boundaries are disjoint, so greedy scanning without
backtracking is equivalent to the regex. -/
def versionTail (rest : List Char) : Option (String × String) :=
  if rest.takeWhile isWs = [] then none else
  let r1 := rest.dropWhile isWs
  let v := r1.takeWhile isVerC
  if v = [] then none else
  let r2 := r1.dropWhile isVerC
  if r2.takeWhile isWs = [] then none else
  match r2.dropWhile isWs with
  | '(' :: y1 :: y2 :: y3 :: y4 :: h1 :: m1 :: m2 :: h2 :: d1 :: d2 :: cp :: _ =>
    if h1 = '-' ∧ h2 = '-' ∧ cp = ')' ∧
        ([y1, y2, y3, y4, m1, m2, d1, d2].all Char.isDigit) then
      some (⟨v⟩, ⟨[y1, y2, y3, y4, '-', m1, m2, '-', d1, d2]⟩)
    else none
  | _ => none

/-- `version_header_re = ^fping\s+([0-9.]+)\s+\((\d{4}-\d{2}-\d{2})\)`,
returning the two captured groups (version, date). -/
def versionMatchL (cs : List Char) : Option (String × String) :=
  if fpingChars.isPrefixOf cs then versionTail (cs.drop 5) else none

def versionMatchS (l : String) : Option (String × String) :=
  versionMatchL l.data

/-- `section_re = ^##\s+(.*)`, returning the captured group. -/
def sectionMatchL (cs : List Char) : Option String :=
  if ['#', '#'].isPrefixOf cs then
    let rest := cs.drop 2
    if rest.takeWhile isWs = [] then none else some ⟨rest.dropWhile isWs⟩
  else none

def sectionMatchS (l : String) : Option String :=
  sectionMatchL l.data

/-- `bullet_re = ^\s*-\s+(.*)`, returning the captured group. -/
def bulletMatchL (cs : List Char) : Option String :=
  match cs.dropWhile isWs with
  | '-' :: r2 => if r2.takeWhile isWs = [] then none else some ⟨r2.dropWhile isWs⟩
  | _ => none

def bulletMatchS (l : String) : Option String :=
  bulletMatchL l.data

/-- `continuation_re = ^\s{2,}(.*)`, returning the captured group. -/
def contMatchL (cs : List Char) : Option String :=
  if 2 ≤ (cs.takeWhile isWs).length then some ⟨cs.dropWhile isWs⟩ else none

def contMatchS (l : String) : Option String :=
  contMatchL l.data

/-- One parsed version entry: the dict
`\x7b"version": ..., "date": ..., "sections": ...\x7d` of the script, with the
insertion-ordered `sections` dict modelled as an association list. -/
structure Entry where
  version : String
  date : String
  sections : List (String × List String)
deriving Repr, DecidableEq

/-- Python dict assignment `d[k] = v` on an insertion-ordered dict: replace in
place if the key exists, otherwise append at the end. -/
def dictSet : List (String × List String) → String → List String → List (String × List String)
  | [], k, v => [(k, v)]
  | (k', v') :: rest, k, v =>
    if k' = k then (k, v) :: rest else (k', v') :: dictSet rest k v

/-- Python `d[k].append(x)`.  At every call site of the script the key is
present (the current section is always created before use), so the
missing-key `KeyError` case never arises on reachable states; here a missing
key leaves the dict unchanged. -/
def dictAppend : List (String × List String) → String → String → List (String × List String)
  | [], _, _ => []
  | (k', v') :: rest, k, x =>
    if k' = k then (k', v' ++ [x]) :: rest else (k', v') :: dictAppend rest k x

/-- First-match lookup in the association list (Python `d[k]` read). -/
def dictFind : List (String × List String) → String → Option (List String)
  | [], _ => none
  | (k', v') :: rest, k => if k' = k then some v' else dictFind rest k

/-- Parser state threaded through the line loop: `entries`, `current`,
`current_section`, `skip_next_block`, `bullet_accumulator`.  Python `None` is
`none`; note that the script tests `current_section` and `bullet_accumulator`
for *truthiness* (so the empty string behaves like `None`) everywhere except
the continuation guard, which tests `is not None`. -/
structure PState where
  entries : List Entry
  current : Option Entry
  currentSection : Option String
  skip : Bool
  acc : Option String
deriving Repr, DecidableEq

/-- Flush of the pending item guarded by
`if bullet_accumulator and current_section:` — both truthy (non-`None` and
non-empty).  Returns the updated entry and the new accumulator; when the
guard fails the accumulator is *kept*, exactly as in the script. -/
def flushPending (cur : Entry) (cs acc : Option String) : Entry × Option String :=
  match acc, cs with
  | some a, some s =>
    if a ≠ "" ∧ s ≠ "" then
      ({ cur with sections := dictAppend cur.sections s (pyStrip a) }, none)
    else (cur, acc)
  | _, _ => (cur, acc)

/-- Version-header branch (lines 62-79): close the entry in progress, flushing
its pending item, and open a fresh entry with the captured groups. -/
def openEntry (st : PState) (v d : String) : PState :=
  match st.current with
  | some cur =>
    let p := flushPending cur st.currentSection st.acc
    ⟨st.entries ++ [p.1], some ⟨v, d, []⟩, none, false, p.2⟩
  | none => ⟨st.entries, some ⟨v, d, []⟩, none, false, st.acc⟩

/-- Continuation and blank-line handling (lines 100-107), reached when neither
the section nor the bullet branch fired.  A continuation appends
`" " + text.strip()` to a non-`None` accumulator; otherwise a line with empty
`strip()` commits a truthy accumulator to a truthy current section. -/
def contOrBlank (st : PState) (cur : Entry) (l : String) : PState :=
  match contMatchS l, st.acc with
  | some t, some a => { st with acc := some (a ++ " " ++ pyStrip t) }
  | _, _ =>
    match st.acc, st.currentSection with
    | some a, some s =>
      if a ≠ "" ∧ s ≠ "" ∧ pyStrip l = "" then
        { st with
          current := some { cur with sections := dictAppend cur.sections s (pyStrip a) },
          acc := none }
      else st
    | _, _ => st

/-- Body of the loop once a current entry exists and the line is not a version
header (lines 84-107): section header, then bullet (only with a truthy
current section — otherwise it falls through), then continuation/blank. -/
def handleBody (st : PState) (cur : Entry) (l : String) : PState :=
  match sectionMatchS l with
  | some t =>
    let p := flushPending cur st.currentSection st.acc
    let title := pyStrip t
    { st with
      current := some { p.1 with sections := dictSet p.1.sections title [] },
      currentSection := some title,
      acc := p.2 }
  | none =>
    match bulletMatchS l, st.currentSection with
    | some t, some s =>
      if s ≠ "" then
        let cur' := match st.acc with
          | some a =>
            if a ≠ "" then { cur with sections := dictAppend cur.sections s (pyStrip a) }
            else cur
          | none => cur
        { st with current := some cur', acc := some t }
      else contOrBlank st cur l
    | some _, none => contOrBlank st cur l
    | none, _ => contOrBlank st cur l

/-- One iteration of the line loop (lines 47-107). -/
def parseStep (st : PState) (l : String) : PState :=
  if pyStrip l = "Next" then { st with skip := true }
  else if st.skip && (versionMatchS l).isNone then st
  else
    match versionMatchS l with
    | some (v, d) => openEntry st v d
    | none =>
      match st.current with
      | none => st
      | some cur => handleBody st cur l

/-- End-of-input handling (lines 109-113): flush a pending item, then append
the still-open entry. -/
def finishParse (st : PState) : List Entry :=
  match st.current with
  | none => st.entries
  | some cur => st.entries ++ [(flushPending cur st.currentSection st.acc).1]

def initState : PState := ⟨[], none, none, false, none⟩

/-- `parse_markdown_changelog`, over the list of newline-stripped lines. -/
def parseLines (ls : List String) : List Entry :=
  finishParse (ls.foldl parseStep initState)

/-- The header data of an entry: the two regex captures it was created from. -/
def entryInfo (e : Entry) : String × String :=
  (e.version, e.date)

/-- Header data of all entries held in a parser state, closed-first then the
entry in progress. -/
def entriesInfo (st : PState) : List (String × String) :=
  st.entries.map entryInfo ++ (st.current.map entryInfo).toList

/-! ### Date formatting (`format_debian_date`) -/

def digitVal (c : Char) : Nat := c.toNat - 48

def isLeap (y : Nat) : Bool :=
  (y % 4 = 0 && y % 100 ≠ 0) || y % 400 = 0

def daysInMonth (y m : Nat) : Nat :=
  if m = 2 then (if isLeap y then 29 else 28)
  else if m = 4 ∨ m = 6 ∨ m = 9 ∨ m = 11 then 30
  else 31

/-- The string has the shape `\d{4}-\d{2}-\d{2}` (the shape the header regex
captures). -/
def dateShape (s : String) : Bool :=
  match s.data with
  | [y1, y2, y3, y4, h1, m1, m2, h2, d1, d2] =>
    h1 = '-' && h2 = '-' && [y1, y2, y3, y4, m1, m2, d1, d2].all Char.isDigit
  | _ => false

/-- A `YYYY-MM-DD` string denotes a valid calendar date: correctly shaped,
year at least 1 (`datetime.MINYEAR`), month 1..12, day within the month. -/
def calendarValid (s : String) : Bool :=
  match s.data with
  | [y1, y2, y3, y4, h1, m1, m2, h2, d1, d2] =>
    let y := 1000 * digitVal y1 + 100 * digitVal y2 + 10 * digitVal y3 + digitVal y4
    let m := 10 * digitVal m1 + digitVal m2
    let d := 10 * digitVal d1 + digitVal d2
    if h1 = '-' ∧ h2 = '-' ∧ ([y1, y2, y3, y4, m1, m2, d1, d2].all Char.isDigit) ∧
        1 ≤ y ∧ 1 ≤ m ∧ m ≤ 12 ∧ 1 ≤ d ∧ d ≤ daysInMonth y m then true else false
  | _ => false

/-- Days before month `m` in year `y`. -/
def daysBeforeMonth (y m : Nat) : Nat :=
  (List.range (m - 1)).foldl (fun a i => a + daysInMonth y (i + 1)) 0

/-- Rata-die day number of a proleptic Gregorian date (day 1 = 0001-01-01,
a Monday). -/
def rataDie (y m d : Nat) : Nat :=
  365 * (y - 1) + (y - 1) / 4 + (y - 1) / 400 + daysBeforeMonth y m + d - (y - 1) / 100

def dayName : Nat → String
  | 0 => "Mon" | 1 => "Tue" | 2 => "Wed" | 3 => "Thu" | 4 => "Fri" | 5 => "Sat"
  | _ => "Sun"

def monthName : Nat → String
  | 1 => "Jan" | 2 => "Feb" | 3 => "Mar" | 4 => "Apr" | 5 => "May" | 6 => "Jun"
  | 7 => "Jul" | 8 => "Aug" | 9 => "Sep" | 10 => "Oct" | 11 => "Nov" | _ => "Dec"

def pad2 (n : Nat) : String :=
  if n < 10 then "0" ++ toString n else toString n

def pad4 (n : Nat) : String :=
  if n < 10 then "000" ++ toString n
  else if n < 100 then "00" ++ toString n
  else if n < 1000 then "0" ++ toString n
  else toString n

/-- RFC-2822 rendering of a naive midnight datetime, as produced by
`email.utils.format_datetime`: `Sun, 10 Mar 2024 00:00:00 -0000`. -/
def rfc2822 (y m d : Nat) : String :=
  dayName ((rataDie y m d - 1) % 7) ++ ", " ++ pad2 d ++ " " ++ monthName m ++ " " ++
    pad4 y ++ " 00:00:00 -0000"

/-- Modelled from the spec: `format_debian_date` calls
`datetime.strptime(date_str, "%Y-%m-%d")` (stdlib code not under `src/`)
followed by `email.utils.format_datetime`.  The model is restricted to the
zero-padded `YYYY-MM-DD` shape, the only shape the parser can produce
(`strptime` additionally accepts non-padded month/day fields, which never
reach the renderer); the `ValueError` that `strptime`/`datetime` raise for
non-matching or out-of-range data is modelled as `Except.error`, which aborts
rendering just as the uncaught exception terminates the process with a
non-zero status. -/
def formatDebianDate (s : String) : Except String String :=
  match s.data with
  | [y1, y2, y3, y4, h1, m1, m2, h2, d1, d2] =>
    if h1 = '-' ∧ h2 = '-' ∧ ([y1, y2, y3, y4, m1, m2, d1, d2].all Char.isDigit) then
      let y := 1000 * digitVal y1 + 100 * digitVal y2 + 10 * digitVal y3 + digitVal y4
      let m := 10 * digitVal m1 + digitVal m2
      let d := 10 * digitVal d1 + digitVal d2
      if 1 ≤ y ∧ 1 ≤ m ∧ m ≤ 12 ∧ 1 ≤ d ∧ d ≤ daysInMonth y m then
        Except.ok (rfc2822 y m d)
      else Except.error "time data does not denote a valid date"
    else Except.error "time data does not match format"
  | _ => Except.error "time data does not match format"

/-! ### Rendering (`generate_debian_changelog`) -/

def PACKAGE_NAME : String := "fping"
def DEBIAN_DISTRIBUTION : String := "unstable"
def DEBIAN_URGENCY : String := "low"
def MAINTAINER_NAME : String := "David Schweikert"
def MAINTAINER_EMAIL : String := "david@schweikert.ch"
def MAX_LINE_LENGTH : Nat := 80

/-- Helper for `splitWords`: scan the characters, `w` holds the current word
reversed. -/
def splitWordsAux : List Char → List Char → List String
  | [], w => if w = [] then [] else [⟨w.reverse⟩]
  | c :: cs, w =>
    if isWs c then
      if w = [] then splitWordsAux cs [] else ⟨w.reverse⟩ :: splitWordsAux cs []
    else splitWordsAux cs (c :: w)

/-- Split into whitespace-separated words (empty pieces dropped), as
`str.split()` does. -/
def splitWords (s : String) : List String :=
  splitWordsAux s.data []

/-- Greedy fill step: append the word to the current line if it fits in
`MAX_LINE_LENGTH`, otherwise start a fresh continuation line. -/
def wrapStep (acc : List String × String) (w : String) : List String × String :=
  if acc.2.length + 1 + w.length ≤ MAX_LINE_LENGTH then
    (acc.1, acc.2 ++ " " ++ w)
  else
    (acc.1 ++ [acc.2], "      " ++ w)

def joinNL : List String → String
  | [] => ""
  | [x] => x
  | x :: y :: xs => x ++ "\n" ++ joinNL (y :: xs)

/-- Modelled from the spec: `wrap_bullet` uses the stdlib
`textwrap.TextWrapper(width=80, initial_indent="    - ",
subsequent_indent="      ").fill` (not under `src/`): greedy fill to 80
columns on word boundaries; breaking of single words longer than a line is
not modelled. -/
def wrapBullet (text : String) : String :=
  match splitWords text with
  | [] => ""
  | w :: ws =>
    let p := ws.foldl wrapStep ([], "    - " ++ w)
    joinNL (p.1 ++ [p.2])

def headerLine (v : String) : String :=
  PACKAGE_NAME ++ " (" ++ v ++ ") " ++ DEBIAN_DISTRIBUTION ++ "; urgency=" ++ DEBIAN_URGENCY

def trailerLine (d : String) : String :=
  " -- " ++ MAINTAINER_NAME ++ " <" ++ MAINTAINER_EMAIL ++ ">  " ++ d

/-- The section loop (lines 136-143): sections with no items are skipped
entirely; otherwise a `  * title` line, one wrapped block per item, and a
blank line. -/
def sectionLines : List (String × List String) → List String
  | [] => []
  | (t, items) :: rest =>
    if items = [] then sectionLines rest
    else ("  * " ++ t) :: items.map wrapBullet ++ [""] ++ sectionLines rest

/-- All output lines of one entry, given its already-formatted date. -/
def entryLines (e : Entry) (d : String) : List String :=
  headerLine e.version :: "" :: sectionLines e.sections ++ [trailerLine d, ""]

/-- The entry loop of `generate_debian_changelog`; the date is formatted at
the start of each iteration, and a date failure aborts the whole run before
anything is printed. -/
def generateLines : List Entry → Except String (List String)
  | [] => Except.ok []
  | e :: rest =>
    match formatDebianDate e.date with
    | Except.error m => Except.error m
    | Except.ok d =>
      match generateLines rest with
      | Except.error m => Except.error m
      | Except.ok out => Except.ok (entryLines e d ++ out)

/-- `generate_debian_changelog`: the joined output text, or the uncaught
date-formatting failure. -/
def generateDebianChangelog (entries : List Entry) : Except String String :=
  match generateLines entries with
  | Except.error m => Except.error m
  | Except.ok out => Except.ok (joinNL out)

/-! ### CLI argument check (`main`, lines 152-154) -/

inductive OutChannel where
  | stdout
  | stderr
deriving Repr, DecidableEq

/-- The argument-count check of `main`: with `len(sys.argv) != 2` the script
runs `print(f"Usage: ...")` — which writes to standard *output* — and
`sys.exit(1)`.  Result: the channel written to, the message, and the exit
status; `none` means the check passes. -/
def usageCheck (argv : List String) : Option (OutChannel × String × Nat) :=
  if argv.length ≠ 2 then
    some (OutChannel.stdout, "Usage: " ++ argv.headD "" ++ " Changelog.md", 1)
  else none

/-- The claim's version-header shape, stated independently of the matcher:
literal `fping`, whitespace, a non-empty version of digits and dots,
whitespace, then `(YYYY-MM-DD)`, followed by the characters `tail`.  With
`tail = []` this is the claim's "exact shape"
(`specHeaderExactShape`); `specHeaderStartShape` allows an arbitrary tail,
which is what the start-anchored `re.match` actually accepts. -/
def specHeaderCoreShape (l : String) (tail : List Char) : Prop :=
  ∃ ws1 v ws2 y m d : List Char,
    ws1 ≠ [] ∧ (∀ c ∈ ws1, isWs c = true) ∧
    v ≠ [] ∧ (∀ c ∈ v, isVerC c = true) ∧
    ws2 ≠ [] ∧ (∀ c ∈ ws2, isWs c = true) ∧
    y.length = 4 ∧ (∀ c ∈ y, c.isDigit = true) ∧
    m.length = 2 ∧ (∀ c ∈ m, c.isDigit = true) ∧
    d.length = 2 ∧ (∀ c ∈ d, c.isDigit = true) ∧
    l.data = fpingChars ++ ws1 ++ v ++ ws2 ++ ['('] ++ y ++ ['-'] ++ m ++ ['-'] ++ d ++
      [')'] ++ tail

/-- The exact shape `fping <version> (<YYYY-MM-DD>)`: nothing after `)`. -/
def specHeaderExactShape (l : String) : Prop :=
  specHeaderCoreShape l []

/-- The shape anchored only at the start: arbitrary trailing characters. -/
def specHeaderStartShape (l : String) : Prop :=
  ∃ tail, specHeaderCoreShape l tail

/-! ## Helper lemmas -/

theorem with_skip_self (st : PState) (h : st.skip = true) : { st with skip := true } = st := by
  cases st
  simp_all

theorem parseStep_next (st : PState) (l : String) (h : pyStrip l = "Next") :
    parseStep st l = { st with skip := true } := by
  simp [parseStep, h]

theorem parseStep_skip_absorb (st : PState) (l : String) (hskip : st.skip = true)
    (hv : versionMatchS l = none) : parseStep st l = st := by
  by_cases hn : pyStrip l = "Next"
  · rw [parseStep_next st l hn, with_skip_self st hskip]
  · simp [parseStep, hn, hskip, hv]

theorem foldl_skip_absorb (block : List String) (st : PState) (hskip : st.skip = true)
    (hb : ∀ l ∈ block, versionMatchS l = none) : block.foldl parseStep st = st := by
  induction block with
  | nil => rfl
  | cons l rest ih =>
    rw [List.foldl_cons, parseStep_skip_absorb st l hskip (hb l (by simp))]
    exact ih (fun l' hl' => hb l' (by simp [hl']))

theorem parseStep_version (st : PState) (l v d : String) (h1 : pyStrip l ≠ "Next")
    (h2 : versionMatchS l = some (v, d)) : parseStep st l = openEntry st v d := by
  simp [parseStep, h1, h2]

theorem parseStep_body (st : PState) (cur : Entry) (l : String) (h1 : pyStrip l ≠ "Next")
    (h2 : versionMatchS l = none) (h3 : st.skip = false) (h4 : st.current = some cur) :
    parseStep st l = handleBody st cur l := by
  simp [parseStep, h1, h2, h3, h4]

/-! ## Claim theorems -/

/-- Claim C7: a section whose item sequence is empty contributes no `  *` line
and no item lines: the rendered section lines (and hence the rendered lines
of any entry) are unchanged when all empty sections are removed. -/
theorem empty_section_renders_nothing :
    (∀ secs : List (String × List String),
       sectionLines secs = sectionLines (secs.filter (fun p => p.2 ≠ []))) ∧
    (∀ (e : Entry) (d : String),
       entryLines e d = entryLines { e with sections := e.sections.filter (fun p => p.2 ≠ []) } d) := by
  have hsec : ∀ secs : List (String × List String),
      sectionLines secs = sectionLines (secs.filter (fun p => p.2 ≠ [])) := by
    intro secs
    induction secs with
    | nil => rfl
    | cons p rest ih =>
      obtain ⟨t, items⟩ := p
      by_cases h : items = []
      · simp [sectionLines, h, ih]
      · simp [sectionLines, h, ih]
  refine ⟨hsec, fun e d => ?_⟩
  show entryLines e d = entryLines ⟨e.version, e.date, e.sections.filter (fun p => p.2 ≠ [])⟩ d
  simp only [entryLines]
  rw [← hsec e.sections]

/-- Claim C5 (counterexample): invoked with a wrong argument count, the script
emits its usage message on standard *output* (Python `print`), not standard
error as claimed, and exits with status 1. -/
theorem usage_message_goes_to_stdout :
    usageCheck ["./generate-debian-changelog.py"] =
      some (OutChannel.stdout, "Usage: ./generate-debian-changelog.py Changelog.md", 1) ∧
    OutChannel.stdout ≠ OutChannel.stderr := by
  constructor
  · rfl
  · decide

/-- Claim C5 (amended): whenever the argument count differs from exactly one
positional argument (`len(sys.argv) != 2`), the script writes a usage message
to standard output and exits with status 1. -/
theorem usage_check_fails_on_bad_argc (argv : List String) (h : argv.length ≠ 2) :
    ∃ msg, usageCheck argv = some (OutChannel.stdout, msg, 1) := by
  exact ⟨"Usage: " ++ argv.headD "" ++ " Changelog.md", by simp [usageCheck, h]⟩

theorem usage_check_fails_on_bad_argc_witness :
    ∃ msg, usageCheck ["./prog", "a", "b"] = some (OutChannel.stdout, msg, 1) :=
  usage_check_fails_on_bad_argc ["./prog", "a", "b"] (by decide)

/-- Claim C4: a `Next` line followed by a block of non-version-header lines
and then a version header parses (and hence renders) exactly as if the block
were absent: every line of the block is discarded and processing resumes at
the version header. -/
theorem next_block_discarded (pre block post : List String) (nextLine hdr : String)
    (hnext : pyStrip nextLine = "Next")
    (hblock : ∀ l ∈ block, versionMatchS l = none)
    (_hhdr : (versionMatchS hdr).isSome = true) :
    parseLines (pre ++ nextLine :: (block ++ hdr :: post)) =
      parseLines (pre ++ nextLine :: hdr :: post) ∧
    generateDebianChangelog (parseLines (pre ++ nextLine :: (block ++ hdr :: post))) =
      generateDebianChangelog (parseLines (pre ++ nextLine :: hdr :: post)) := by
  have hparse : parseLines (pre ++ nextLine :: (block ++ hdr :: post)) =
      parseLines (pre ++ nextLine :: hdr :: post) := by
    unfold parseLines
    rw [List.foldl_append, List.foldl_append, List.foldl_cons, List.foldl_cons,
      parseStep_next _ _ hnext]
    rw [List.foldl_append]
    rw [foldl_skip_absorb block _ rfl hblock]
  exact ⟨hparse, by rw [hparse]⟩

theorem next_block_discarded_witness :
    parseLines (["fping 2.0 (2024-02-02)"] ++ "Next" :: (["## Old", "- dropped"] ++
        "fping 1.0 (2024-01-01)" :: ["## New", "- kept"])) =
      parseLines (["fping 2.0 (2024-02-02)"] ++ "Next" :: "fping 1.0 (2024-01-01)" :: ["## New", "- kept"]) :=
  (next_block_discarded ["fping 2.0 (2024-02-02)"] ["## Old", "- dropped"] ["## New", "- kept"]
    "Next" "fping 1.0 (2024-01-01)" (by decide) (by decide) (by decide)).1

theorem append_space_append_ne_empty (a b : String) : a ++ " " ++ b ≠ "" := by
  intro h
  have hl := congrArg String.length h
  simp [String.length_append] at hl
  exact absurd hl.1.2 (by decide)

/-- Claim C2 (counterexample): with bullet line `- x ` (trailing space) and
continuations `  a`, `  b`, the committed item is `x  a b` — the untrimmed
bullet text is joined, leaving a double space — which differs from joining
the three trimmed pieces with single spaces (`x a b`). -/
theorem continuation_join_counterexample :
    parseLines ["fping 1.0 (2024-01-01)", "## Changes", "- x ", "  a", "  b"] =
      [⟨"1.0", "2024-01-01", [("Changes", ["x  a b"])]⟩] ∧
    ("x  a b" : String) ≠ pyStrip "x " ++ " " ++ pyStrip "a" ++ " " ++ pyStrip "b" := by
  constructor
  · decide
  · decide

/-- Claim C2 (amended): for a bullet followed by two continuation lines, the
committed item is the *raw* bullet text (which may carry trailing
whitespace), then a single joining space and the trimmed text of each
continuation in turn, the whole finally trimmed.  Only when the bullet text
carries no trailing whitespace does this coincide with joining the three
trimmed pieces by single spaces. -/
theorem bullet_continuation_join (lbu lc1 lc2 tb t1 t2 : String)
    (hbb : bulletMatchS lbu = some tb) (hsb : sectionMatchS lbu = none)
    (hvb : versionMatchS lbu = none) (hnb : pyStrip lbu ≠ "Next")
    (hc1 : contMatchS lc1 = some t1) (hb1 : bulletMatchS lc1 = none)
    (hs1 : sectionMatchS lc1 = none) (hv1 : versionMatchS lc1 = none)
    (hn1 : pyStrip lc1 ≠ "Next")
    (hc2 : contMatchS lc2 = some t2) (hb2 : bulletMatchS lc2 = none)
    (hs2 : sectionMatchS lc2 = none) (hv2 : versionMatchS lc2 = none)
    (hn2 : pyStrip lc2 ≠ "Next") :
    parseLines ["fping 1.0 (2024-01-01)", "## Changes", lbu, lc1, lc2, ""] =
      [⟨"1.0", "2024-01-01",
        [("Changes", [pyStrip (tb ++ " " ++ pyStrip t1 ++ " " ++ pyStrip t2)])]⟩] := by
  unfold parseLines
  simp only [List.foldl_cons, List.foldl_nil]
  have e1 : parseStep initState "fping 1.0 (2024-01-01)" =
      ⟨[], some ⟨"1.0", "2024-01-01", []⟩, none, false, none⟩ := by decide
  have e2 : parseStep ⟨[], some ⟨"1.0", "2024-01-01", []⟩, none, false, none⟩ "## Changes" =
      ⟨[], some ⟨"1.0", "2024-01-01", [("Changes", [])]⟩, some "Changes", false, none⟩ := by
    decide
  rw [e1, e2]
  have e3 : parseStep
      ⟨[], some ⟨"1.0", "2024-01-01", [("Changes", [])]⟩, some "Changes", false, none⟩ lbu =
      ⟨[], some ⟨"1.0", "2024-01-01", [("Changes", [])]⟩, some "Changes", false, some tb⟩ := by
    rw [parseStep_body _ _ _ hnb hvb rfl rfl]
    simp [handleBody, hbb, hsb]
  rw [e3]
  have e4 : parseStep
      ⟨[], some ⟨"1.0", "2024-01-01", [("Changes", [])]⟩, some "Changes", false, some tb⟩ lc1 =
      ⟨[], some ⟨"1.0", "2024-01-01", [("Changes", [])]⟩, some "Changes", false,
        some (tb ++ " " ++ pyStrip t1)⟩ := by
    rw [parseStep_body _ _ _ hn1 hv1 rfl rfl]
    simp [handleBody, contOrBlank, hs1, hb1, hc1]
  rw [e4]
  have e5 : parseStep
      ⟨[], some ⟨"1.0", "2024-01-01", [("Changes", [])]⟩, some "Changes", false,
        some (tb ++ " " ++ pyStrip t1)⟩ lc2 =
      ⟨[], some ⟨"1.0", "2024-01-01", [("Changes", [])]⟩, some "Changes", false,
        some (tb ++ " " ++ pyStrip t1 ++ " " ++ pyStrip t2)⟩ := by
    rw [parseStep_body _ _ _ hn2 hv2 rfl rfl]
    simp [handleBody, contOrBlank, hs2, hb2, hc2]
  rw [e5]
  have e6 : parseStep
      ⟨[], some ⟨"1.0", "2024-01-01", [("Changes", [])]⟩, some "Changes", false,
        some (tb ++ " " ++ pyStrip t1 ++ " " ++ pyStrip t2)⟩ "" =
      ⟨[], some ⟨"1.0", "2024-01-01",
        [("Changes", [pyStrip (tb ++ " " ++ pyStrip t1 ++ " " ++ pyStrip t2)])]⟩,
        some "Changes", false, none⟩ := by
    rw [parseStep_body _ _ _ (by decide) (by decide) rfl rfl]
    simp [handleBody, contOrBlank, (by decide : sectionMatchS "" = none),
      (by decide : bulletMatchS "" = none), (by decide : contMatchS "" = none),
      (by decide : pyStrip "" = ""),
      append_space_append_ne_empty (tb ++ " " ++ pyStrip t1) (pyStrip t2), dictAppend]
  rw [e6]
  simp [finishParse, flushPending]

theorem bullet_continuation_join_witness :
    parseLines ["fping 1.0 (2024-01-01)", "## Changes", "- x ", "  a", "  b", ""] =
      [⟨"1.0", "2024-01-01",
        [("Changes", [pyStrip ("x " ++ " " ++ pyStrip "a" ++ " " ++ pyStrip "b")])]⟩] :=
  bullet_continuation_join "- x " "  a" "  b" "x " "a" "b" (by decide) (by decide) (by decide)
    (by decide) (by decide) (by decide) (by decide) (by decide) (by decide) (by decide)
    (by decide) (by decide) (by decide) (by decide)

theorem wsOnly_no_match (l : String) (hws : ∀ c ∈ l.data, isWs c = true) :
    pyStrip l = "" ∧ versionMatchS l = none ∧ sectionMatchS l = none ∧
      bulletMatchS l = none := by
  have hdrop : l.data.dropWhile isWs = [] := List.dropWhile_eq_nil_iff.mpr hws
  refine ⟨?_, ?_, ?_, ?_⟩
  · show (⟨pyStripL l.data⟩ : String) = ""
    simp [pyStripL, hdrop]
  · show versionMatchL l.data = none
    rcases hd : l.data with _ | ⟨c, rest⟩
    · rfl
    · have hc : isWs c = true := hws c (by rw [hd]; exact List.mem_cons_self c rest)
      have hcf : c ≠ 'f' := by
        intro h
        rw [h] at hc
        exact absurd hc (by decide)
      simp [versionMatchL, fpingChars, List.isPrefixOf, Ne.symm hcf]
  · show sectionMatchL l.data = none
    rcases hd : l.data with _ | ⟨c, rest⟩
    · rfl
    · have hc : isWs c = true := hws c (by rw [hd]; exact List.mem_cons_self c rest)
      have hcf : c ≠ '#' := by
        intro h
        rw [h] at hc
        exact absurd hc (by decide)
      simp [sectionMatchL, List.isPrefixOf, Ne.symm hcf]
  · show bulletMatchL l.data = none
    simp [bulletMatchL, hdrop]

/-- Claim C10: while a pending item exists, a whitespace-only line of length
at least two is matched by the continuation pattern, not the blank-line rule:
it does not commit the pending item (it only appends the joining space), a
subsequent continuation line still joins onto the same item, and among lines
with empty stripped content exactly those with fewer than two (whitespace)
characters commit the pending item to the current section. -/
theorem whitespace_continuation_no_flush (st : PState) (cur : Entry) (s a : String)
    (l lc t lb : String)
    (hskip : st.skip = false) (hcur : st.current = some cur)
    (hcs : st.currentSection = some s) (hacc : st.acc = some a)
    (hws : ∀ c ∈ l.data, isWs c = true) (hlen : 2 ≤ l.data.length) :
    parseStep st l = { st with acc := some (a ++ " ") } ∧
    (contMatchS lc = some t → bulletMatchS lc = none → sectionMatchS lc = none →
      versionMatchS lc = none → pyStrip lc ≠ "Next" →
      parseStep (parseStep st l) lc = { st with acc := some (a ++ " " ++ " " ++ pyStrip t) }) ∧
    ((∀ c ∈ lb.data, isWs c = true) → lb.data.length < 2 → a ≠ "" → s ≠ "" →
      parseStep st lb = { st with
        current := some { cur with sections := dictAppend cur.sections s (pyStrip a) },
        acc := none }) := by
  obtain ⟨hstrip, hver, hsec, hbul⟩ := wsOnly_no_match l hws
  have hcont : contMatchS l = some "" := by
    show contMatchL l.data = some ""
    have htake : l.data.takeWhile isWs = l.data := List.takeWhile_eq_self_iff.mpr hws
    have hdrop : l.data.dropWhile isWs = [] := List.dropWhile_eq_nil_iff.mpr hws
    unfold contMatchL
    rw [htake, hdrop, if_pos hlen]
  have hnn : pyStrip l ≠ "Next" := by
    rw [hstrip]
    decide
  have h1 : parseStep st l = { st with acc := some (a ++ " ") } := by
    rw [parseStep_body st cur l hnn hver hskip hcur]
    rw [show (a ++ " " : String) = a ++ " " ++ pyStrip "" by
      rw [show pyStrip "" = "" from rfl, String.append_empty]]
    simp [handleBody, contOrBlank, hsec, hbul, hcont, hcs, hacc]
  refine ⟨h1, fun hc hb hs hv hn => ?_, fun hwsb hlenb hane hsne => ?_⟩
  · rw [h1]
    rw [parseStep_body _ cur lc hn hv (by simp [hskip]) (by simp [hcur])]
    simp [handleBody, contOrBlank, hs, hb, hc, hcs]
  · obtain ⟨hstripb, hverb, hsecb, hbulb⟩ := wsOnly_no_match lb hwsb
    have hcontb : contMatchS lb = none := by
      show contMatchL lb.data = none
      have htake : lb.data.takeWhile isWs = lb.data := List.takeWhile_eq_self_iff.mpr hwsb
      unfold contMatchL
      rw [htake, if_neg (by omega)]
    have hnnb : pyStrip lb ≠ "Next" := by
      rw [hstripb]
      decide
    rw [parseStep_body st cur lb hnnb hverb hskip hcur]
    simp [handleBody, contOrBlank, hsecb, hbulb, hcontb, hacc, hcs, hane, hsne, hstripb]

theorem whitespace_continuation_no_flush_witness :
    parseStep ⟨[], some ⟨"1.0", "2024-01-01", [("S", [])]⟩, some "S", false, some "x"⟩ "  " =
      ⟨[], some ⟨"1.0", "2024-01-01", [("S", [])]⟩, some "S", false, some ("x" ++ " ")⟩ ∧
    parseStep
      (parseStep ⟨[], some ⟨"1.0", "2024-01-01", [("S", [])]⟩, some "S", false, some "x"⟩ "  ")
      "  y" =
      ⟨[], some ⟨"1.0", "2024-01-01", [("S", [])]⟩, some "S", false,
        some ("x" ++ " " ++ " " ++ pyStrip "y")⟩ ∧
    parseStep ⟨[], some ⟨"1.0", "2024-01-01", [("S", [])]⟩, some "S", false, some "x"⟩ " " =
      ⟨[], some ⟨"1.0", "2024-01-01", dictAppend [("S", [])] "S" (pyStrip "x")⟩, some "S",
        false, none⟩ := by
  have T := whitespace_continuation_no_flush
    ⟨[], some ⟨"1.0", "2024-01-01", [("S", [])]⟩, some "S", false, some "x"⟩
    ⟨"1.0", "2024-01-01", [("S", [])]⟩ "S" "x" "  " "  y" "y" " "
    rfl rfl rfl rfl (by decide) (by decide)
  exact ⟨T.1, T.2.1 (by decide) (by decide) (by decide) (by decide) (by decide),
    T.2.2 (by decide) (by decide) (by decide) (by decide)⟩

theorem flushPending_info (cur : Entry) (cs acc : Option String) :
    entryInfo (flushPending cur cs acc).1 = entryInfo cur := by
  rcases acc with _ | a <;> rcases cs with _ | s <;> simp [flushPending, entryInfo]
  split <;> simp

theorem flushPending_fields (cur : Entry) (cs acc : Option String) :
    (flushPending cur cs acc).1.version = cur.version ∧
    (flushPending cur cs acc).1.date = cur.date := by
  simpa [entryInfo, Prod.ext_iff] using flushPending_info cur cs acc

theorem dropWhile_append_last {p : Char → Bool} (c : Char) (h : p c = false) (ys : List Char) :
    ∃ zs, (ys ++ [c]).dropWhile p = zs ++ [c] := by
  induction ys with
  | nil =>
    exact ⟨[], by simp [List.dropWhile, h]⟩
  | cons a ys ih =>
    by_cases ha : p a
    · obtain ⟨zs, hz⟩ := ih
      exact ⟨zs, by simp [List.dropWhile, ha, hz]⟩
    · exact ⟨a :: ys, by simp [List.dropWhile, ha]⟩

theorem pyStripL_head (c : Char) (xs : List Char) (h : isWs c = false) :
    ∃ ys, pyStripL (c :: xs) = c :: ys := by
  unfold pyStripL
  rw [List.dropWhile_cons, if_neg (by simp [h])]
  rw [List.reverse_cons]
  obtain ⟨zs, hz⟩ := dropWhile_append_last c h xs.reverse
  rw [hz, List.reverse_append]
  exact ⟨zs.reverse, by simp⟩

theorem exists_append_of_isPrefixOf (p cs : List Char) (h : p.isPrefixOf cs = true) :
    ∃ t, cs = p ++ t := by
  induction p generalizing cs with
  | nil => exact ⟨cs, rfl⟩
  | cons a p ih =>
    cases cs with
    | nil => exact absurd h (by simp [List.isPrefixOf])
    | cons c cs =>
      simp only [List.isPrefixOf, Bool.and_eq_true, beq_iff_eq] at h
      obtain ⟨t, ht⟩ := ih cs h.2
      exact ⟨t, by rw [h.1, ht, List.cons_append]⟩

theorem isPrefixOf_append_self (p t : List Char) : p.isPrefixOf (p ++ t) = true := by
  induction p with
  | nil => simp [List.isPrefixOf]
  | cons a p ih => simp [List.isPrefixOf, ih]

theorem version_starts_fping (cs : List Char) (p : String × String)
    (h : versionMatchL cs = some p) :
    ∃ rest, cs = 'f' :: 'p' :: 'i' :: 'n' :: 'g' :: rest := by
  unfold versionMatchL at h
  by_cases hpre : fpingChars.isPrefixOf cs
  · obtain ⟨t, ht⟩ := exists_append_of_isPrefixOf fpingChars cs hpre
    exact ⟨t, ht⟩
  · rw [if_neg hpre] at h
    exact absurd h (by simp)

theorem next_no_version (l : String) (h : pyStrip l = "Next") : versionMatchS l = none := by
  cases hv : versionMatchS l with
  | none => rfl
  | some p =>
    exfalso
    obtain ⟨rest, hrest⟩ := version_starts_fping l.data p hv
    obtain ⟨ys, hy⟩ := pyStripL_head 'f' ('p' :: 'i' :: 'n' :: 'g' :: rest) (by decide)
    have hd := congrArg String.data h
    rw [show (pyStrip l).data = pyStripL l.data from rfl, hrest, hy] at hd
    simp at hd

theorem contOrBlank_entries_info (st : PState) (cur : Entry) (l : String)
    (hcur : st.current = some cur) :
    (contOrBlank st cur l).entries = st.entries ∧
    (contOrBlank st cur l).current.map entryInfo = st.current.map entryInfo := by
  unfold contOrBlank
  rcases hc : contMatchS l with _ | t <;> rcases ha : st.acc with _ | a <;>
    rcases hs : st.currentSection with _ | s <;>
    simp [hcur, entryInfo] <;> split <;> simp [hcur, entryInfo]

theorem handleBody_entries_info (st : PState) (cur : Entry) (l : String)
    (hcur : st.current = some cur) :
    (handleBody st cur l).entries = st.entries ∧
    (handleBody st cur l).current.map entryInfo = st.current.map entryInfo := by
  unfold handleBody
  rcases hsec : sectionMatchS l with _ | t
  · rcases hbul : bulletMatchS l with _ | t
    · exact contOrBlank_entries_info st cur l hcur
    · rcases hs : st.currentSection with _ | s
      · exact contOrBlank_entries_info st cur l hcur
      · by_cases hse : s ≠ ""
        · rcases ha : st.acc with _ | a <;> simp [hse, hcur, entryInfo] <;> split <;>
            simp [entryInfo]
        · simp [hse]
          exact contOrBlank_entries_info st cur l hcur
  · have hfi := flushPending_info cur st.currentSection st.acc
    simp [hcur, entryInfo, Prod.ext_iff] at hfi ⊢
    exact hfi

theorem entriesInfo_step (st : PState) (l : String) :
    entriesInfo (parseStep st l) = entriesInfo st ++ (versionMatchS l).toList := by
  by_cases hn : pyStrip l = "Next"
  · rw [parseStep_next st l hn, next_no_version l hn]
    simp [entriesInfo]
  · rcases hv : versionMatchS l with _ | ⟨v, d⟩
    · by_cases hsk : st.skip = true
      · rw [parseStep_skip_absorb st l hsk hv]
        simp
      · rcases hc : st.current with _ | cur
        · have hstep : parseStep st l = st := by
            simp [parseStep, hn, hv, hc]
          rw [hstep]
          simp
        · rw [parseStep_body st cur l hn hv (by simpa using hsk) hc]
          obtain ⟨h1, h2⟩ := handleBody_entries_info st cur l hc
          simp [entriesInfo, h1, h2]
    · rw [parseStep_version st l v d hn hv]
      rcases hc : st.current with _ | cur
      · simp [openEntry, hc, entriesInfo, entryInfo]
      · simp [openEntry, hc, entriesInfo, entryInfo]
        exact flushPending_fields cur st.currentSection st.acc

theorem finishParse_info (st : PState) :
    (finishParse st).map entryInfo = entriesInfo st := by
  rcases hc : st.current with _ | cur <;>
    simp [finishParse, hc, entriesInfo, flushPending_info]

theorem parse_headers_general (ls : List String) : ∀ st : PState,
    (finishParse (ls.foldl parseStep st)).map entryInfo =
      entriesInfo st ++ ls.filterMap versionMatchS := by
  induction ls with
  | nil =>
    intro st
    simp [finishParse_info]
  | cons l rest ih =>
    intro st
    rw [List.foldl_cons, ih (parseStep st l), entriesInfo_step]
    rcases hv : versionMatchS l with _ | p <;> simp [List.filterMap_cons, hv]

theorem parse_info_eq (ls : List String) :
    (parseLines ls).map entryInfo = ls.filterMap versionMatchS := by
  have h := parse_headers_general ls initState
  simpa [parseLines, entriesInfo, initState] using h

theorem dictSet_keys (d : List (String × List String)) (k : String) (v : List String) :
    (dictSet d k v).map Prod.fst =
      if k ∈ d.map Prod.fst then d.map Prod.fst else d.map Prod.fst ++ [k] := by
  induction d with
  | nil => simp [dictSet]
  | cons p rest ih =>
    obtain ⟨k', v'⟩ := p
    by_cases hk : k' = k
    · subst hk
      simp [dictSet]
    · by_cases hm : k ∈ rest.map Prod.fst <;>
        simp [dictSet, hk, Ne.symm hk, hm, ih]

theorem dictAppend_keys (d : List (String × List String)) (k x : String) :
    (dictAppend d k x).map Prod.fst = d.map Prod.fst := by
  induction d with
  | nil => rfl
  | cons p rest ih =>
    obtain ⟨k', v'⟩ := p
    by_cases hk : k' = k <;> simp [dictAppend, hk, ih]

theorem dictAppend_find (d : List (String × List String)) (k x : String) :
    dictFind (dictAppend d k x) k = (dictFind d k).map (fun v => v ++ [x]) := by
  induction d with
  | nil => rfl
  | cons p rest ih =>
    obtain ⟨k', v'⟩ := p
    by_cases hk : k' = k <;> simp [dictAppend, dictFind, hk, ih]

theorem generateLines_join (entries : List Entry) (out : List String)
    (h : generateLines entries = Except.ok out) :
    out = (entries.map (fun e =>
      entryLines e ((formatDebianDate e.date).toOption.getD ""))).flatten := by
  induction entries generalizing out with
  | nil =>
    simp [generateLines] at h
    simp [← h]
  | cons e rest ih =>
    rcases hd : formatDebianDate e.date with m | d
    · rw [generateLines, hd] at h
      exact absurd h (by simp)
    · rw [generateLines, hd] at h
      rcases hr : generateLines rest with m | out'
      · rw [hr] at h
        exact absurd h (by simp)
      · rw [hr] at h
        have hout : out = entryLines e d ++ out' := by
          exact (Except.ok.inj h).symm
        rw [hout, ih out' hr]
        simp only [List.map_cons, List.flatten_cons, hd, Except.toOption, Option.getD_some]

/-- Claim C3: ordering is preserved end to end.  (1) The parsed entries are
exactly, and in order, the version-header matches of the input lines, so
entries are never sorted.  (2) Assigning a section key keeps the key order,
appending a fresh key only at the end — section order is first-encounter
order.  (3) Committing an item appends it at the end of its section's list,
and never reorders the keys.  (4) The rendered output is the in-order
concatenation of the per-entry blocks, whose section and item lines follow
the stored order. -/
theorem output_order_preserved :
    (∀ ls : List String, (parseLines ls).map entryInfo = ls.filterMap versionMatchS) ∧
    (∀ (d : List (String × List String)) (k : String) (v : List String),
       (dictSet d k v).map Prod.fst =
         if k ∈ d.map Prod.fst then d.map Prod.fst else d.map Prod.fst ++ [k]) ∧
    (∀ (d : List (String × List String)) (k x : String),
       (dictAppend d k x).map Prod.fst = d.map Prod.fst ∧
       dictFind (dictAppend d k x) k = (dictFind d k).map (fun v => v ++ [x])) ∧
    (∀ (entries : List Entry) (out : List String), generateLines entries = Except.ok out →
       out = (entries.map (fun e =>
         entryLines e ((formatDebianDate e.date).toOption.getD ""))).flatten) :=
  ⟨parse_info_eq, dictSet_keys,
    fun d k x => ⟨dictAppend_keys d k x, dictAppend_find d k x⟩, generateLines_join⟩

theorem output_order_preserved_witness :
    ["fping (5.2) unstable; urgency=low", "",
     " -- David Schweikert <david@schweikert.ch>  Thu, 11 Apr 2024 00:00:00 -0000", "",
     "fping (5.1) unstable; urgency=low", "", "  * Changes",
     "    - Added feature X with more detail", "    - Fixed bug Y", "",
     " -- David Schweikert <david@schweikert.ch>  Sun, 10 Mar 2024 00:00:00 -0000", ""] =
      (([⟨"5.2", "2024-04-11", []⟩,
         ⟨"5.1", "2024-03-10",
           [("Changes", ["Added feature X with more detail", "Fixed bug Y"])]⟩] :
        List Entry).map (fun e =>
          entryLines e ((formatDebianDate e.date).toOption.getD ""))).flatten :=
  output_order_preserved.2.2.2
    [⟨"5.2", "2024-04-11", []⟩,
     ⟨"5.1", "2024-03-10", [("Changes", ["Added feature X with more detail", "Fixed bug Y"])]⟩]
    _ (by rfl)

theorem versionTail_date_shape (rest : List Char) (v d : String)
    (h : versionTail rest = some (v, d)) : dateShape d = true := by
  unfold versionTail at h
  dsimp only at h
  split at h
  · exact absurd h (by simp)
  · split at h
    · exact absurd h (by simp)
    · split at h
      · exact absurd h (by simp)
      · split at h
        · split at h
          · simp only [Option.some.injEq, Prod.mk.injEq] at h
            obtain ⟨hv, hd⟩ := h
            rw [← hd]
            rename_i _ hcond
            simp [dateShape]
            simpa using hcond.2.2.2
          · exact absurd h (by simp)
        · exact absurd h (by simp)

theorem version_date_shape (l : String) (v d : String)
    (h : versionMatchS l = some (v, d)) : dateShape d = true := by
  unfold versionMatchS versionMatchL at h
  by_cases hpre : fpingChars.isPrefixOf l.data
  · rw [if_pos hpre] at h
    exact versionTail_date_shape _ v d h
  · rw [if_neg hpre] at h
    exact absurd h (by simp)

theorem parsed_dates_shaped (ls : List String) (e : Entry) (h : e ∈ parseLines ls) :
    dateShape e.date = true := by
  have hm : entryInfo e ∈ (parseLines ls).map entryInfo := List.mem_map_of_mem _ h
  rw [parse_info_eq] at hm
  obtain ⟨l', hl', hv⟩ := List.mem_filterMap.mp hm
  exact version_date_shape l' e.version e.date hv

theorem formatDate_isOk_eq_calendarValid (s : String) (h : dateShape s = true) :
    (formatDebianDate s).isOk = calendarValid s := by
  unfold dateShape at h
  split at h
  · rename_i y1 y2 y3 y4 h1 m1 m2 h2 d1 d2 heq
    simp only [Bool.and_eq_true, decide_eq_true_eq] at h
    obtain ⟨⟨hh1, hh2⟩, hdig⟩ := h
    simp only [formatDebianDate, calendarValid, heq]
    rw [if_pos ⟨hh1, hh2, hdig⟩]
    split
    · rename_i hr
      rw [if_pos ⟨hh1, hh2, hdig, hr⟩]
      rfl
    · rename_i hr
      rw [if_neg (fun hc => hr hc.2.2.2)]
      rfl
  · exact absurd h (by simp)

/-- Claim C9: every entry the parser returns carries a date string of the
shape `\d{4}-\d{2}-\d{2}` (it is a capture of the version-header regex), and
on strings of that shape the renderer's strict date parse succeeds exactly
when the string denotes a valid calendar date — so it can only fail on
calendar validity, never on shape. -/
theorem parser_dates_well_shaped :
    (∀ (ls : List String) (e : Entry), e ∈ parseLines ls → dateShape e.date = true) ∧
    (∀ s : String, dateShape s = true → (formatDebianDate s).isOk = calendarValid s) :=
  ⟨parsed_dates_shaped, formatDate_isOk_eq_calendarValid⟩

theorem parser_dates_well_shaped_witness :
    dateShape ("2024-13-40" : String) = true ∧
    (formatDebianDate "2024-02-30").isOk = calendarValid "2024-02-30" :=
  ⟨parser_dates_well_shaped.1 ["fping 5.0 (2024-13-40)"] ⟨"5.0", "2024-13-40", []⟩ (by decide),
    parser_dates_well_shaped.2 "2024-02-30" (by decide)⟩

theorem generateLines_error_of_mem (entries : List Entry) (e : Entry) (he : e ∈ entries)
    (hf : (formatDebianDate e.date).isOk = false) :
    ∃ msg, generateLines entries = Except.error msg := by
  induction entries with
  | nil => exact absurd he (by simp)
  | cons a rest ih =>
    rcases ha : formatDebianDate a.date with m | d
    · exact ⟨m, by simp [generateLines, ha]⟩
    · rcases List.mem_cons.mp he with he' | he'
      · rw [he', ha] at hf
        exact absurd hf (by simp [Except.isOk, Except.toBool])
      · obtain ⟨m, hm⟩ := ih he'
        exact ⟨m, by simp [generateLines, ha, hm]⟩

/-- Claim C1: when any parsed entry's stored date string does not denote a
valid calendar date, parsing itself succeeds (it returned the entry), but
rendering fails: `generate_debian_changelog` hits the strict date parse,
whose `ValueError` is uncaught, so the process dies with a non-zero status
instead of emitting a malformed date. -/
theorem invalid_date_aborts_render (ls : List String) (e : Entry) (he : e ∈ parseLines ls)
    (hv : calendarValid e.date = false) :
    ∃ msg, generateDebianChangelog (parseLines ls) = Except.error msg := by
  have hshape := parsed_dates_shaped ls e he
  have hok := formatDate_isOk_eq_calendarValid e.date hshape
  rw [hv] at hok
  obtain ⟨m, hm⟩ := generateLines_error_of_mem (parseLines ls) e he hok
  exact ⟨m, by simp [generateDebianChangelog, hm]⟩

theorem invalid_date_aborts_render_witness :
    (⟨"5.0", "2024-13-40", []⟩ : Entry) ∈ parseLines ["fping 5.0 (2024-13-40)"] ∧
    calendarValid "2024-13-40" = false ∧
    ∃ msg, generateDebianChangelog (parseLines ["fping 5.0 (2024-13-40)"]) = Except.error msg :=
  ⟨by decide, by decide,
    invalid_date_aborts_render ["fping 5.0 (2024-13-40)"] ⟨"5.0", "2024-13-40", []⟩ (by decide)
      (by decide)⟩

theorem isWs_cases (c : Char) (h : isWs c = true) :
    c = ' ' ∨ c = '\t' ∨ c = '\n' ∨ c = '\r' ∨ c = '\x0b' ∨ c = '\x0c' := by
  simpa [isWs, or_assoc] using h

theorem not_ws_of_verC (c : Char) (h : isVerC c = true) : isWs c = false := by
  cases hw : isWs c
  · rfl
  · rcases isWs_cases c hw with h' | h' | h' | h' | h' | h' <;> rw [h'] at h <;>
      exact absurd h (by decide)

theorem not_verC_of_ws (c : Char) (h : isWs c = true) : isVerC c = false := by
  cases hv : isVerC c
  · rfl
  · rcases isWs_cases c h with h' | h' | h' | h' | h' | h' <;> rw [h'] at hv <;>
      exact absurd hv (by decide)

theorem takeWhile_all_append_cons {p : Char → Bool} (xs : List Char) (c : Char) (cs : List Char)
    (hxs : ∀ x ∈ xs, p x = true) (hc : p c = false) :
    (xs ++ c :: cs).takeWhile p = xs := by
  induction xs with
  | nil => simp [List.takeWhile_cons, hc]
  | cons a xs ih =>
    have ha : p a = true := hxs a (List.mem_cons_self a xs)
    simp [List.takeWhile_cons, ha, ih (fun x hx => hxs x (List.mem_cons_of_mem a hx))]

theorem dropWhile_all_append_cons {p : Char → Bool} (xs : List Char) (c : Char) (cs : List Char)
    (hxs : ∀ x ∈ xs, p x = true) (hc : p c = false) :
    (xs ++ c :: cs).dropWhile p = c :: cs := by
  induction xs with
  | nil => simp [List.dropWhile_cons, hc]
  | cons a xs ih =>
    have ha : p a = true := hxs a (List.mem_cons_self a xs)
    simp [List.dropWhile_cons, ha, ih (fun x hx => hxs x (List.mem_cons_of_mem a hx))]

theorem length_eq_four {y : List Char} (h : y.length = 4) :
    ∃ a b c d, y = [a, b, c, d] := by
  rcases y with _ | ⟨a, _ | ⟨b, _ | ⟨c, _ | ⟨d, _ | ⟨e, t⟩⟩⟩⟩⟩ <;> simp at h
  exact ⟨a, b, c, d, rfl⟩

theorem versionTail_some_of_shape (ws1 v ws2 y m d tail : List Char)
    (hws1 : ws1 ≠ []) (hws1a : ∀ c ∈ ws1, isWs c = true)
    (hv : v ≠ []) (hva : ∀ c ∈ v, isVerC c = true)
    (hws2 : ws2 ≠ []) (hws2a : ∀ c ∈ ws2, isWs c = true)
    (hy : y.length = 4) (hya : ∀ c ∈ y, c.isDigit = true)
    (hm : m.length = 2) (hma : ∀ c ∈ m, c.isDigit = true)
    (hd : d.length = 2) (hda : ∀ c ∈ d, c.isDigit = true) :
    (versionTail (ws1 ++ v ++ ws2 ++ ['('] ++ y ++ ['-'] ++ m ++ ['-'] ++ d ++ [')'] ++
      tail)).isSome = true := by
  rcases v with _ | ⟨vc, vrest⟩
  · exact absurd rfl hv
  rcases ws2 with _ | ⟨wc, wrest⟩
  · exact absurd rfl hws2
  obtain ⟨a1, a2, a3, a4, rfl⟩ := length_eq_four hy
  obtain ⟨b1, b2, rfl⟩ := List.length_eq_two.mp hm
  obtain ⟨c1, c2, rfl⟩ := List.length_eq_two.mp hd
  have harg : ws1 ++ (vc :: vrest) ++ (wc :: wrest) ++ ['('] ++ [a1, a2, a3, a4] ++ ['-'] ++
      [b1, b2] ++ ['-'] ++ [c1, c2] ++ [')'] ++ tail =
      ws1 ++ vc :: (vrest ++ wc :: (wrest ++
        '(' :: a1 :: a2 :: a3 :: a4 :: '-' :: b1 :: b2 :: '-' :: c1 :: c2 :: ')' :: tail)) := by
    simp [List.append_assoc]
  rw [harg]
  have hstop1 : isWs vc = false := not_ws_of_verC vc (hva vc (List.mem_cons_self vc vrest))
  have hstop2 : isVerC wc = false := not_verC_of_ws wc (hws2a wc (List.mem_cons_self wc wrest))
  have ht1 := takeWhile_all_append_cons ws1 vc
    (vrest ++ wc :: (wrest ++
      '(' :: a1 :: a2 :: a3 :: a4 :: '-' :: b1 :: b2 :: '-' :: c1 :: c2 :: ')' :: tail))
    hws1a hstop1
  have hd1 := dropWhile_all_append_cons ws1 vc
    (vrest ++ wc :: (wrest ++
      '(' :: a1 :: a2 :: a3 :: a4 :: '-' :: b1 :: b2 :: '-' :: c1 :: c2 :: ')' :: tail))
    hws1a hstop1
  have hcons1 : vc :: (vrest ++ wc :: (wrest ++
      '(' :: a1 :: a2 :: a3 :: a4 :: '-' :: b1 :: b2 :: '-' :: c1 :: c2 :: ')' :: tail)) =
      (vc :: vrest) ++ wc :: (wrest ++
        '(' :: a1 :: a2 :: a3 :: a4 :: '-' :: b1 :: b2 :: '-' :: c1 :: c2 :: ')' :: tail) := by
    simp
  have ht2 := takeWhile_all_append_cons (vc :: vrest) wc
    (wrest ++ '(' :: a1 :: a2 :: a3 :: a4 :: '-' :: b1 :: b2 :: '-' :: c1 :: c2 :: ')' :: tail)
    hva hstop2
  have hd2 := dropWhile_all_append_cons (vc :: vrest) wc
    (wrest ++ '(' :: a1 :: a2 :: a3 :: a4 :: '-' :: b1 :: b2 :: '-' :: c1 :: c2 :: ')' :: tail)
    hva hstop2
  have hcons2 : wc :: (wrest ++
      '(' :: a1 :: a2 :: a3 :: a4 :: '-' :: b1 :: b2 :: '-' :: c1 :: c2 :: ')' :: tail) =
      (wc :: wrest) ++
      '(' :: a1 :: a2 :: a3 :: a4 :: '-' :: b1 :: b2 :: '-' :: c1 :: c2 :: ')' :: tail := by
    simp
  have ht3 := takeWhile_all_append_cons (wc :: wrest) '('
    (a1 :: a2 :: a3 :: a4 :: '-' :: b1 :: b2 :: '-' :: c1 :: c2 :: ')' :: tail)
    hws2a (by decide)
  have hd3 := dropWhile_all_append_cons (wc :: wrest) '('
    (a1 :: a2 :: a3 :: a4 :: '-' :: b1 :: b2 :: '-' :: c1 :: c2 :: ')' :: tail)
    hws2a (by decide)
  unfold versionTail
  dsimp only
  rw [ht1, hd1, hcons1, ht2, hd2, hcons2, ht3, hd3]
  rw [if_neg hws1, if_neg (by simp : ¬(vc :: vrest = [])), if_neg (by simp : ¬(wc :: wrest = []))]
  have hdig : ([a1, a2, a3, a4, b1, b2, c1, c2].all Char.isDigit) = true := by
    simp only [List.all_cons, List.all_nil, Bool.and_eq_true]
    exact ⟨hya a1 (by simp), hya a2 (by simp), hya a3 (by simp), hya a4 (by simp),
      hma b1 (by simp), hma b2 (by simp), hda c1 (by simp), hda c2 (by simp), trivial⟩
  simp [hdig]

theorem shape_of_versionMatch (l : String) (p : String × String)
    (h : versionMatchS l = some p) : specHeaderStartShape l := by
  obtain ⟨rest, hrest⟩ := version_starts_fping l.data p h
  have htail : versionTail rest = some p := by
    unfold versionMatchS versionMatchL at h
    rw [hrest] at h
    have hpre : fpingChars.isPrefixOf ('f' :: 'p' :: 'i' :: 'n' :: 'g' :: rest) = true :=
      isPrefixOf_append_self fpingChars rest
    rw [if_pos hpre] at h
    exact h
  unfold versionTail at htail
  dsimp only at htail
  split at htail
  · exact absurd htail (by simp)
  · split at htail
    · exact absurd htail (by simp)
    · split at htail
      · exact absurd htail (by simp)
      · split at htail
        · split at htail
          · rename_i hne1 hne2 hne3 x y1 y2 y3 y4 h1c m1 m2 h2c d1 d2 cp tl hmatch hcond
            obtain ⟨hc1, hc2, hc3, hdig⟩ := hcond
            subst hc1
            subst hc2
            subst hc3
            simp only [List.all_cons, List.all_nil, Bool.and_eq_true] at hdig
            refine ⟨tl, rest.takeWhile isWs, (rest.dropWhile isWs).takeWhile isVerC,
              ((rest.dropWhile isWs).dropWhile isVerC).takeWhile isWs,
              [y1, y2, y3, y4], [m1, m2], [d1, d2],
              hne1, fun c hc => List.mem_takeWhile_imp hc,
              hne2, fun c hc => List.mem_takeWhile_imp hc,
              hne3, fun c hc => List.mem_takeWhile_imp hc,
              rfl, ?_, rfl, ?_, rfl, ?_, ?_⟩
            · intro c hc
              simp only [List.mem_cons, List.not_mem_nil, or_false] at hc
              rcases hc with rfl | rfl | rfl | rfl
              · exact hdig.1
              · exact hdig.2.1
              · exact hdig.2.2.1
              · exact hdig.2.2.2.1
            · intro c hc
              simp only [List.mem_cons, List.not_mem_nil, or_false] at hc
              rcases hc with rfl | rfl
              · exact hdig.2.2.2.2.1
              · exact hdig.2.2.2.2.2.1
            · intro c hc
              simp only [List.mem_cons, List.not_mem_nil, or_false] at hc
              rcases hc with rfl | rfl
              · exact hdig.2.2.2.2.2.2.1
              · exact hdig.2.2.2.2.2.2.2.1
            · have e1 : rest = rest.takeWhile isWs ++ rest.dropWhile isWs :=
                (List.takeWhile_append_dropWhile isWs rest).symm
              have e2 : rest.dropWhile isWs =
                  (rest.dropWhile isWs).takeWhile isVerC ++
                    (rest.dropWhile isWs).dropWhile isVerC :=
                (List.takeWhile_append_dropWhile isVerC (rest.dropWhile isWs)).symm
              have e3 : (rest.dropWhile isWs).dropWhile isVerC =
                  ((rest.dropWhile isWs).dropWhile isVerC).takeWhile isWs ++
                    ((rest.dropWhile isWs).dropWhile isVerC).dropWhile isWs :=
                (List.takeWhile_append_dropWhile isWs
                  ((rest.dropWhile isWs).dropWhile isVerC)).symm
              rw [hrest]
              show 'f' :: 'p' :: 'i' :: 'n' :: 'g' :: rest = _
              conv_lhs => rw [e1]
              conv_lhs => rw [e2]
              conv_lhs => rw [e3]
              rw [hmatch]
              simp [fpingChars, List.append_assoc]
          · exact absurd htail (by simp)
        · exact absurd htail (by simp)

/-- Claim C6 (counterexample): the header regex is matched with `re.match`,
which anchors only at the start, so a line that *begins* with the claimed
shape but carries trailing characters after the closing parenthesis is still
treated as a version header and opens a new entry — the shape is not exact. -/
theorem version_header_trailing_junk :
    ¬ specHeaderExactShape "fping 1.0 (2024-01-01) r" ∧
    parseLines ["fping 1.0 (2024-01-01) r"] = [⟨"1.0", "2024-01-01", []⟩] := by
  constructor
  · intro h
    obtain ⟨ws1, v, ws2, y, m, d, h1, h2, h3, h4, h5, h6, h7, h8, h9, h10, h11, h12, heq⟩ := h
    have hlast : ("fping 1.0 (2024-01-01) r").data.getLast? = some ')' := by
      rw [heq, List.append_nil]
      exact List.getLast?_concat _
    rw [show ("fping 1.0 (2024-01-01) r").data.getLast? = some 'r' by rfl] at hlast
    exact absurd (Option.some.inj hlast) (by decide)
  · decide

/-- Claim C6 (amended): a line is recognized as a version header iff it
*begins* with `fping <digits-and-dots> (<YYYY-MM-DD>)` — whitespace runs of
any length, arbitrary characters allowed after the closing parenthesis
(`re.match` anchors at the start only) — and the parsed entries are exactly
the version-header matches, in order. -/
theorem version_header_iff_shape :
    (∀ l : String, ((versionMatchS l).isSome = true ↔ specHeaderStartShape l)) ∧
    (∀ ls : List String, (parseLines ls).map entryInfo = ls.filterMap versionMatchS) := by
  refine ⟨fun l => ⟨?_, ?_⟩, parse_info_eq⟩
  · intro h
    rcases hp : versionMatchS l with _ | p
    · rw [hp] at h
      exact absurd h (by simp)
    · exact shape_of_versionMatch l p hp
  · rintro ⟨tail, ws1, v, ws2, y, m, d, h1, h2, h3, h4, h5, h6, h7, h8, h9, h10, h11, h12, heq⟩
    have heq' : l.data = fpingChars ++
        (ws1 ++ v ++ ws2 ++ ['('] ++ y ++ ['-'] ++ m ++ ['-'] ++ d ++ [')'] ++ tail) := by
      rw [heq]
      simp [List.append_assoc]
    unfold versionMatchS versionMatchL
    rw [heq', if_pos (isPrefixOf_append_self _ _),
      show (5 : Nat) = fpingChars.length from rfl, List.drop_left]
    exact versionTail_some_of_shape ws1 v ws2 y m d tail h1 h2 h3 h4 h5 h6 h7 h8 h9 h10 h11 h12

theorem version_header_iff_shape_witness :
    specHeaderStartShape "fping 1.0 (2024-01-01) r" ∧
    (parseLines ["fping 4.2 (2023-05-01)"]).map entryInfo =
      (["fping 4.2 (2023-05-01)"] : List String).filterMap versionMatchS := by
  constructor
  · exact (version_header_iff_shape.1 "fping 1.0 (2024-01-01) r").mp (by decide)
  · exact version_header_iff_shape.2 ["fping 4.2 (2023-05-01)"]

theorem dictFind_dictSet (d : List (String × List String)) (k : String) (v : List String) :
    dictFind (dictSet d k v) k = some v := by
  induction d with
  | nil => simp [dictSet, dictFind]
  | cons p rest ih =>
    obtain ⟨k', v'⟩ := p
    by_cases hk : k' = k <;> simp [dictSet, dictFind, hk, ih]

theorem dictSet_reset (pre post : List (String × List String)) (tt : String)
    (v0 v : List String) (h : tt ∉ pre.map Prod.fst) :
    dictSet (pre ++ (tt, v0) :: post) tt v = pre ++ (tt, v) :: post := by
  induction pre with
  | nil => simp [dictSet]
  | cons p pre ih =>
    obtain ⟨k, w⟩ := p
    simp only [List.map_cons, List.mem_cons] at h
    push_neg at h
    have hk : ¬(k = tt) := fun hh => h.1 hh.symm
    simp [dictSet, hk, ih h.2]

theorem dictSet_dictAppend_indep (pre post : List (String × List String)) (tt s x : String)
    (items1 items2 : List String) (h : tt ∉ pre.map Prod.fst) :
    dictSet (dictAppend (pre ++ (tt, items1) :: post) s x) tt [] =
      dictSet (dictAppend (pre ++ (tt, items2) :: post) s x) tt [] := by
  induction pre with
  | nil => by_cases hts : tt = s <;> simp [dictAppend, dictSet, hts]
  | cons p pre ih =>
    obtain ⟨k, w⟩ := p
    simp only [List.map_cons, List.mem_cons] at h
    push_neg at h
    have hk : ¬(k = tt) := fun hh => h.1 hh.symm
    by_cases hks : k = s
    · subst hks
      simp [dictAppend, dictSet, hk, dictSet_reset pre post tt items1 [] h.2,
        dictSet_reset pre post tt items2 [] h.2]
    · simp [dictAppend, dictSet, hks, hk, ih h.2]

theorem parseStep_repeated_section (entries : List Entry) (version date : String)
    (secs : List (String × List String)) (cs acc : Option String) (lsec t : String)
    (hsec : sectionMatchS lsec = some t) (hnext : pyStrip lsec ≠ "Next")
    (hver : versionMatchS lsec = none) :
    parseStep ⟨entries, some ⟨version, date, secs⟩, cs, false, acc⟩ lsec =
      ⟨entries,
        some ⟨version, date,
          dictSet (flushPending ⟨version, date, secs⟩ cs acc).1.sections (pyStrip t) []⟩,
        some (pyStrip t), false, (flushPending ⟨version, date, secs⟩ cs acc).2⟩ := by
  rw [parseStep_body _ _ _ hnext hver rfl rfl]
  obtain ⟨hv, hd⟩ := flushPending_fields ⟨version, date, secs⟩ cs acc
  simp [handleBody, hsec, hv, hd]

/-- Claim C8: general over every parser state.  Whenever a section-header
line's trimmed title already exists as a key of the current entry's sections
(the second occurrence of the same trimmed title, with `items1` the items
committed under the first occurrence — any number of them, any surrounding
sections, any pending accumulator): processing that header produces a state
identical to the one obtained had the first occurrence's items been anything
else (they are discarded), the mapping at the title immediately after the
header is the empty list, and consequently the whole remaining run —
arbitrary following lines — does not depend on the discarded items: the
final mapping holds only items committed after the second header, never a
merge of both. -/
theorem duplicate_section_discards_first (entries : List Entry) (version date : String)
    (pre post : List (String × List String)) (cs acc : Option String)
    (items1 items2 : List String) (lsec t : String) (rest : List String)
    (hsec : sectionMatchS lsec = some t) (hnext : pyStrip lsec ≠ "Next")
    (hver : versionMatchS lsec = none) (hkey : pyStrip t ∉ pre.map Prod.fst) :
    parseStep ⟨entries, some ⟨version, date, pre ++ (pyStrip t, items1) :: post⟩, cs, false,
        acc⟩ lsec =
      parseStep ⟨entries, some ⟨version, date, pre ++ (pyStrip t, items2) :: post⟩, cs, false,
        acc⟩ lsec ∧
    (∃ cur', (parseStep ⟨entries, some ⟨version, date, pre ++ (pyStrip t, items1) :: post⟩, cs,
        false, acc⟩ lsec).current = some cur' ∧
      dictFind cur'.sections (pyStrip t) = some []) ∧
    finishParse ((lsec :: rest).foldl parseStep
        ⟨entries, some ⟨version, date, pre ++ (pyStrip t, items1) :: post⟩, cs, false, acc⟩) =
      finishParse ((lsec :: rest).foldl parseStep
        ⟨entries, some ⟨version, date, pre ++ (pyStrip t, items2) :: post⟩, cs, false, acc⟩) := by
  have h1 := parseStep_repeated_section entries version date
    (pre ++ (pyStrip t, items1) :: post) cs acc lsec t hsec hnext hver
  have h2 := parseStep_repeated_section entries version date
    (pre ++ (pyStrip t, items2) :: post) cs acc lsec t hsec hnext hver
  have hsecs :
      dictSet (flushPending ⟨version, date, pre ++ (pyStrip t, items1) :: post⟩ cs
          acc).1.sections (pyStrip t) [] =
      dictSet (flushPending ⟨version, date, pre ++ (pyStrip t, items2) :: post⟩ cs
          acc).1.sections (pyStrip t) [] := by
    rcases acc with _ | a
    · rcases cs with _ | s
      · simp [flushPending, dictSet_reset pre post (pyStrip t) items1 [] hkey,
          dictSet_reset pre post (pyStrip t) items2 [] hkey]
      · simp [flushPending, dictSet_reset pre post (pyStrip t) items1 [] hkey,
          dictSet_reset pre post (pyStrip t) items2 [] hkey]
    · rcases cs with _ | s
      · simp [flushPending, dictSet_reset pre post (pyStrip t) items1 [] hkey,
          dictSet_reset pre post (pyStrip t) items2 [] hkey]
      · by_cases hflush : a ≠ "" ∧ s ≠ ""
        · simp only [flushPending, if_pos hflush]
          exact dictSet_dictAppend_indep pre post (pyStrip t) s (pyStrip a) items1 items2 hkey
        · simp [flushPending, hflush, dictSet_reset pre post (pyStrip t) items1 [] hkey,
            dictSet_reset pre post (pyStrip t) items2 [] hkey]
  have hacc :
      (flushPending ⟨version, date, pre ++ (pyStrip t, items1) :: post⟩ cs acc).2 =
      (flushPending ⟨version, date, pre ++ (pyStrip t, items2) :: post⟩ cs acc).2 := by
    rcases acc with _ | a
    · rcases cs with _ | s
      · simp [flushPending]
      · simp [flushPending]
    · rcases cs with _ | s
      · simp [flushPending]
      · by_cases hflush : a ≠ "" ∧ s ≠ "" <;> simp [flushPending, hflush]
  have heq : parseStep ⟨entries, some ⟨version, date, pre ++ (pyStrip t, items1) :: post⟩, cs,
      false, acc⟩ lsec =
      parseStep ⟨entries, some ⟨version, date, pre ++ (pyStrip t, items2) :: post⟩, cs, false,
        acc⟩ lsec := by
    rw [h1, h2, hsecs, hacc]
  refine ⟨heq, ?_, ?_⟩
  · rw [h1]
    exact ⟨_, rfl, dictFind_dictSet _ _ _⟩
  · rw [List.foldl_cons, List.foldl_cons, heq]

theorem duplicate_section_discards_first_witness :
    parseStep ⟨[], some ⟨"1.0", "2024-01-01",
        [("Other", ["kept"]), ("Changes", ["old1", "old2"])]⟩, some "Changes", false,
        some "pending"⟩ "## Changes" =
      parseStep ⟨[], some ⟨"1.0", "2024-01-01",
        [("Other", ["kept"]), ("Changes", [])]⟩, some "Changes", false, some "pending"⟩
        "## Changes" ∧
    (∃ cur', (parseStep ⟨[], some ⟨"1.0", "2024-01-01",
        [("Other", ["kept"]), ("Changes", ["old1", "old2"])]⟩, some "Changes", false,
        some "pending"⟩ "## Changes").current = some cur' ∧
      dictFind cur'.sections (pyStrip "Changes") = some []) ∧
    finishParse (("## Changes" :: ["- new"]).foldl parseStep
        ⟨[], some ⟨"1.0", "2024-01-01", [("Other", ["kept"]), ("Changes", ["old1", "old2"])]⟩,
          some "Changes", false, some "pending"⟩) =
      finishParse (("## Changes" :: ["- new"]).foldl parseStep
        ⟨[], some ⟨"1.0", "2024-01-01", [("Other", ["kept"]), ("Changes", [])]⟩,
          some "Changes", false, some "pending"⟩) := by
  exact duplicate_section_discards_first [] "1.0" "2024-01-01" [("Other", ["kept"])] []
    (some "Changes") (some "pending") ["old1", "old2"] [] "## Changes" "Changes" ["- new"]
    (by decide) (by decide) (by decide) (by decide)

end Md2Debian
